import Mathlib

/-! Verification development for the Desktop Entry Launcher (del.c).

The program is shallowly embedded: C byte strings become `List Nat` (one entry
per byte), the racy filesystem probe `can_execute` and the `PATH` environment
variable become explicit parameters, and the stateful loops of del.c become
structural recursions over the data they consume.  Every definition below is
translated from the corresponding function of src/utilities/del.c; line
references are given in the doc comments. -/

set_option maxHeartbeats 1000000

namespace Del

/-- A C byte string (NUL-free): one `Nat` per byte. -/
abbrev Str := List Nat

/-- Byte list of an ASCII Lean string literal, for concrete test inputs. -/
def bytes (s : String) : Str := s.toList.map Char.toNat

/-- tolower(3) in the C locale restricted to bytes: maps A-Z (65-90) to a-z
(97-122) and leaves every other byte unchanged.  This is also exactly the
explicit lowering loop of parse_desktop_entry (del.c:407-412). -/
def lowerByte (b : Nat) : Nat := if 65 ≤ b ∧ b ≤ 90 then b + 32 else b

/-- Lowercased copy of a byte string (del.c:407-412). -/
def toLowerStr (s : Str) : Str := s.map lowerByte

/-- strcasecmp(3): byte-wise comparison under tolower.  del.c only ever looks
at the sign or zero-ness of the result; the terminator cases produce the
correct sign because the modelled strings contain no NUL byte. -/
def strcasecmp : Str → Str → Int
  | [], [] => 0
  | [], _ :: _ => -1
  | _ :: _, [] => 1
  | a :: as, b :: bs =>
    if lowerByte a = lowerByte b then strcasecmp as bs
    else (lowerByte a : Int) - (lowerByte b : Int)

/-- isspace(3) for the default locale: space, \t, \n, \v, \f, \r.  This is the
whitespace class used by the sscanf(3) calls of parse_desktop_entry. -/
def isWs (b : Nat) : Bool := b == 32 || b == 9 || b == 10 || b == 11 || b == 12 || b == 13

/-- Skip a (possibly empty) run of whitespace, as a whitespace directive or a
percent-s conversion of sscanf(3) does. -/
def skipWs (s : Str) : Str := s.dropWhile isWs

/-- POSIX basename(3) from libgen.h (used at del.c:378 and del.c:386): strip
trailing slashes, then keep the part after the last remaining slash; the empty
string gives "." and an all-slash string gives "/". -/
def basename (s : Str) : Str :=
  if s = [] then [46]
  else
    let t := (s.reverse.dropWhile (fun b => b == 47)).reverse
    if t = [] then [47]
    else (t.reverse.takeWhile (fun b => !(b == 47))).reverse

/-- PATH_MAX, the size of the static candidate buffer of command_path
(del.c:275). -/
def PATH_MAX : Nat := 4096

/-- Why command_path returned NULL: plain not-found, PATH unset, or the
ENAMETOOLONG errno set by the length guard at del.c:308-311. -/
inductive ResolveErr
  | notFound
  | pathUnset
  | nameTooLong
deriving DecidableEq

/-- The prefix command_path copies into its buffer for one PATH component
(del.c:299-306): an empty component denotes the current directory and becomes
"./"; otherwise a '/' is appended unless the component already ends in one. -/
def compPre (comp : Str) : Str :=
  if comp = [] then [46, 47]
  else if comp.getLast? = some 47 then comp else comp ++ [47]

/-- The component scan of command_path (del.c:293-323).  `X` is the racy
can_execute probe (access(2) + stat(2) + S_ISREG, del.c:249-258), supplied as
an oracle over candidate paths.  The scan stops at the first component whose
joined candidate is executable; the length guard at del.c:308-311 aborts the
whole resolution with ENAMETOOLONG. -/
def searchPath (X : Str → Bool) (cmd : Str) : List Str → Except ResolveErr Str
  | [] => .error .notFound
  | comp :: rest =>
    if PATH_MAX ≤ (compPre comp).length + cmd.length then .error .nameTooLong
    else if X (compPre comp ++ cmd) then .ok (compPre comp ++ cmd)
    else searchPath X cmd rest

/-- Split a PATH value at colons; n separators yield n+1 components, so the
empty string is one empty component and a trailing colon adds one. -/
def splitColon : Str → List Str
  | [] => [[]]
  | b :: bs =>
    if b = 58 then [] :: splitColon bs
    else
      match splitColon bs with
      | [] => [[b]]
      | r :: rs => (b :: r) :: rs

/-- command_path (del.c:271-324) with the failure reason kept: a command
containing '/' is probed directly and PATH is never consulted; otherwise PATH
(`penv`) is split at colons and scanned in order. -/
def command_pathE (X : Str → Bool) (penv : Option Str) (cmd : Str) : Except ResolveErr Str :=
  if cmd.contains 47 then
    if X cmd then .ok cmd else .error .notFound
  else
    match penv with
    | none => .error .pathUnset
    | some s => searchPath X cmd (splitColon s)

/-- command_path as its callers see it: NULL or the resolved path. -/
def command_path (X : Str → Bool) (penv : Option Str) (cmd : Str) : Option Str :=
  (command_pathE X penv cmd).toOption

/-- command_list_contains (del.c:188-199): case-insensitive linear scan of the
in-memory command list. -/
def command_list_contains (commands : List Str) (needle : Str) : Bool :=
  commands.any (fun c => strcasecmp c needle == 0)

/-- The registry invariant named by the spec: no two entries of the list are
equal under case-insensitive comparison. -/
def caseDistinct : List Str → Bool
  | [] => true
  | x :: xs => xs.all (fun y => !(strcasecmp x y == 0)) && caseDistinct xs

/-- The newline strip of load_commands_from_file (del.c:457-459): remove one
trailing newline if present (getline lines are nonempty, so the length check
of the C code is subsumed by `getLast?`). -/
def stripNewline (l : Str) : Str := if l.getLast? = some 10 then l.dropLast else l

/-- The line loop of load_commands_from_file (del.c:456-467) applied to the
sequence of lines getline(3) yields for the file: each line has one trailing
newline removed, is validated through command_path, and is appended to the
command list when it resolves (unresolvable lines are only reported).  There
is no containment check on this path. -/
def load_commands_from_file (X : Str → Bool) (penv : Option Str) (reg : List Str) : List Str → List Str
  | [] => reg
  | line :: rest =>
    let entry := stripNewline line
    if (command_path X penv entry).isSome then
      load_commands_from_file X penv (reg ++ [entry]) rest
    else
      load_commands_from_file X penv reg rest

/-- The mutable locals of the parse_desktop_entry line loop (del.c:350-355):
whether "[Desktop Entry]" has been seen, the current `command` buffer, and the
current `command_basename`. -/
structure ParseState where
  inside : Bool
  command : Str
  cbase : Str
deriving DecidableEq

/-- Initial parser state (del.c:351-354): outside the section, empty command. -/
def initState : ParseState := ⟨false, [], []⟩

/-- The exact section-header line matched case-insensitively at del.c:370,
newline included. -/
def headerLine : Str := bytes ("[Desktop Entry]\n")

def keyNoDisplay : Str := bytes ("NoDisplay")

def keyTerminal : Str := bytes ("Terminal")

def keyExec : Str := bytes ("Exec")

def trueStr : Str := bytes ("true")

def envStr : Str := bytes ("env")

/-- One sscanf(3) call of the form "KEY = %5s" (del.c:371-372): the literal
key must start the line, whitespace directives skip any whitespace, '=' must
follow, and the conversion takes at most 5 non-whitespace bytes, failing on an
empty token. -/
def parseKeyValue (key : Str) (line : Str) : Option Str :=
  if line.take key.length = key then
    match skipWs (line.drop key.length) with
    | 61 :: r2 =>
      let tok := ((skipWs r2).takeWhile (fun b => !(isWs b))).take 5
      if tok = [] then none else some tok
    | _ => none
  else none

/-- sscanf(line, "Exec = %4095s %n", ...) (del.c:377): on success returns the
first token of the value and the rest of the line after that token (the %n
offset; the later env rescan skips whitespace itself, so the exact whitespace
position is immaterial). -/
def parseExec (line : Str) : Option (Str × Str) :=
  if line.take keyExec.length = keyExec then
    match skipWs (line.drop keyExec.length) with
    | 61 :: r2 =>
      let t := skipWs r2
      let tok := (t.takeWhile (fun b => !(isWs b))).take 4095
      if tok = [] then none else some (tok, t.drop tok.length)
    | _ => none
  else none

/-- One sscanf(rest, "%4095s %n", ...) step of the env rescan (del.c:384):
skip whitespace, take at most 4095 non-whitespace bytes, fail if no token. -/
def nextToken (s : Str) : Option (Str × Str) :=
  let t := skipWs s
  let tok := (t.takeWhile (fun b => !(isWs b))).take 4095
  if tok = [] then none else some (tok, t.drop tok.length)

/-- The filter of the env rescan (del.c:385): a token qualifies as the real
command when it has no '=' after its first byte and does not begin with '-'. -/
def envOk (tok : Str) : Bool := !((tok.drop 1).contains 61) && !(tok.head? == some 45)

/-- Fuel-indexed form of the env rescan loop (del.c:384-392); the fuel only
needs to exceed the number of bytes left on the line. -/
def envScanF : Nat → ParseState → Str → ParseState
  | 0, st, _ => st
  | fuel + 1, st, rest =>
    match nextToken rest with
    | none => st
    | some (tok, rest2) =>
      if envOk tok then { st with command := tok, cbase := basename tok }
      else envScanF fuel { st with command := [] } rest2

/-- The env rescan loop (del.c:383-393): scan the remainder of the Exec line
for the first qualifying token; each skipped token clears the command buffer.
Note that when the rescan loop never executes (no tokens at all after `env`)
the command buffer still holds "env". -/
def envScan (st : ParseState) (rest : Str) : ParseState := envScanF (rest.length + 1) st rest

/-- Fuel-indexed token sequence of the env rescan, for stating what the rescan
computes. -/
def tokenizeF : Nat → Str → List Str
  | 0, _ => []
  | fuel + 1, s =>
    match nextToken s with
    | none => []
    | some (tok, rest2) => tok :: tokenizeF fuel rest2

/-- The whitespace-delimited tokens sscanf would successively produce from a
string. -/
def tokenize (s : Str) : List Str := tokenizeF (s.length + 1) s

/-- One iteration of the parse_desktop_entry line loop (del.c:368-395).
Returns the new state and whether the loop breaks (which only the
NoDisplay/Terminal=true branch does).  The branch order is that of the
else-if chain: section header test while outside; then NoDisplay, then
Terminal, then Exec. -/
def processLine (st : ParseState) (line : Str) : ParseState × Bool :=
  if st.inside = false then
    ({ st with inside := strcasecmp headerLine line == 0 }, false)
  else
    match parseKeyValue keyNoDisplay line with
    | some v => if strcasecmp trueStr v == 0 then ({ st with command := [] }, true) else (st, false)
    | none =>
      match parseKeyValue keyTerminal line with
      | some v => if strcasecmp trueStr v == 0 then ({ st with command := [] }, true) else (st, false)
      | none =>
        match parseExec line with
        | some tr =>
          let st2 := { st with command := tr.1, cbase := basename tr.1 }
          if basename tr.1 = envStr then (envScan st2 tr.2, false) else (st2, false)
        | none => (st, false)

/-- The whole line loop of parse_desktop_entry over the file's lines, with the
break flag recorded. -/
def parseLoopB (st : ParseState) : List Str → ParseState × Bool
  | [] => (st, false)
  | line :: rest =>
    let pr := processLine st line
    if pr.2 then (pr.1, true) else parseLoopB pr.1 rest

/-- The candidate parse_desktop_entry extracts from a file's lines
(del.c:368-400): none when the final command buffer is empty, otherwise the
final command_basename. -/
def entryCandidate (lines : List Str) : Option Str :=
  let st := (parseLoopB initState lines).1
  if st.command = [] then none else some st.cbase

/-- Does this line hit the disqualifying branch of del.c:371-376 (a NoDisplay
or Terminal key whose value is case-insensitively "true") when inside the
section? -/
def disqualifier (line : Str) : Bool :=
  match parseKeyValue keyNoDisplay line with
  | some v => strcasecmp trueStr v == 0
  | none =>
    match parseKeyValue keyTerminal line with
    | some v => strcasecmp trueStr v == 0
    | none => false

/-- parse_desktop_entry's effect on the command list (del.c:336-424), for a
file that has the ".desktop" suffix and opens: extract the candidate, drop it
if the list already contains it case-insensitively, then add the lowercased
basename if it resolves, else the original basename if its case differed and
it resolves (allocation failure is outside this embedding). -/
def parse_desktop_entry (X : Str → Bool) (penv : Option Str) (reg : List Str) (lines : List Str) : List Str :=
  match entryCandidate lines with
  | none => reg
  | some cb =>
    if command_list_contains reg cb then reg
    else
      let lower := toLowerStr cb
      let caseChanged := cb.any (fun b => decide (65 ≤ b ∧ b ≤ 90))
      if (command_path X penv lower).isSome then reg ++ [lower]
      else if caseChanged && (command_path X penv cb).isSome then reg ++ [cb]
      else reg

/-- The write-phase skip of refresh_command_list (del.c:565-571): entry i is
written unless i > 0 and strcmp finds it byte-identical to the immediately
preceding sorted entry.  `prev` is that preceding entry (none at i = 0). -/
def dedupO : Option Str → List Str → List Str
  | _, [] => []
  | prev, x :: xs =>
    if prev = some x then dedupO (some x) xs else x :: dedupO (some x) xs

/-- The lines the write phase emits for a sorted command list. -/
def dedupConsecutive (l : List Str) : List Str := dedupO none l

/-- The two files persist can touch: the destination path and the mkstemp
temporary.  `none` means the path does not exist. -/
structure FS where
  dest : Option (List Str)
  temp : Option (List Str)
deriving DecidableEq

/-- The diagnostics the persist phase can emit (del.c:551, 574, 576, 583,
585). -/
inductive Report
  | mkstempErr
  | tempErr
  | flushErr
  | renameErr
  | noCommandsErr
deriving DecidableEq

/-- Outcomes of the fallible I/O steps of the persist phase: mkstemp, fdopen,
each fprintf call in order, the fflush/fsync/fclose group, and rename. -/
structure IOOracle where
  mkstempOk : Bool
  fdopenOk : Bool
  writeOk : Nat → Bool
  flushOk : Bool
  renameOk : Bool

/-- The write loop of refresh_command_list (del.c:565-571): iterate the sorted
entries, skip an entry byte-identical to the immediately preceding sorted
entry, and otherwise perform the k-th fprintf, which may fail.  Returns the
bytes that reached the temporary file and whether the loop completed. -/
def writeLoop (w : Nat → Bool) : Nat → Option Str → List Str → List Str × Bool
  | _, _, [] => ([], true)
  | k, prev, x :: xs =>
    if prev = some x then writeLoop w k (some x) xs
    else if w k then
      let r := writeLoop w (k + 1) (some x) xs
      (x :: r.1, r.2)
    else ([], false)

/-- The persist phase of refresh_command_list (del.c:555-591) on a sorted
command list: mkstemp creates the temporary; any later failure unlinks it and
leaves the destination untouched (the error label, del.c:581-591); only a
completed write/flush/rename sequence replaces the destination. -/
def persistFS (o : IOOracle) (sorted : List Str) (fs : FS) : Nat × FS × List Report :=
  if o.mkstempOk = false then (1, fs, [.mkstempErr])
  else
    let fsT : FS := { fs with temp := some [] }
    if o.fdopenOk = false then (1, { fsT with temp := none }, [.tempErr])
    else
      let wr := writeLoop o.writeOk 0 none sorted
      let fsW : FS := { fsT with temp := some wr.1 }
      if wr.2 = false then (1, { fsW with temp := none }, [.tempErr])
      else if o.flushOk = false then (1, { fsW with temp := none }, [.flushErr, .tempErr])
      else if o.renameOk = false then (1, { fsW with temp := none }, [.renameErr, .tempErr])
      else (0, { dest := some wr.1, temp := none }, [])

/-- The loading phase of refresh_command_list (del.c:517-548): stdin when it
is not a terminal, then the pre-existing destination file, then every
".desktop" file the nftw walk hands to parse_desktop_entry, in walk order. -/
def refresh_command_list_load (X : Str → Bool) (penv : Option Str)
    (stdinLines : Option (List Str)) (destLines : Option (List Str))
    (entries : List (List Str)) : List Str :=
  let r1 := match stdinLines with
    | some ls => load_commands_from_file X penv [] ls
    | none => []
  let r2 := match destLines with
    | some ls => load_commands_from_file X penv r1 ls
    | none => r1
  entries.foldl (fun reg e => parse_desktop_entry X penv reg e) r2

/-- The tail of refresh_command_list after loading (del.c:550-591): the empty
registry is reported as "no commands found" and is fatal before any temporary
file is created; otherwise the persist phase runs on the sorted list. -/
def refresh_command_list_write (o : IOOracle) (reg sorted : List Str) (fs : FS) : Nat × FS × List Report :=
  if reg = [] then (1, fs, [.noCommandsErr])
  else persistFS o sorted fs

/-- The signal menu sends to cancel the selector (del.c:703). -/
def SIGHUP : Nat := 1

/-- How waitpid reports the selector's termination (del.c:713-724). -/
inductive WaitResult
  | exited (st : Nat)
  | signaled (sg : Nat)
deriving DecidableEq

/-- The finalization of menu (del.c:702-727): menu_kill_signal is SIGHUP
exactly when a fatal error made the orchestrator cancel the selector; a
non-zero exit status is surfaced only when no failure is pending; a death
signal is surfaced as 128 + signal unless it is the cancellation signal the
orchestrator itself sent. -/
def reconcile (failure : Nat) (w : WaitResult) : Nat :=
  let killSignal := if failure = 1 then SIGHUP else 0
  match w with
  | .exited st => if failure = 0 then st else failure
  | .signaled sg => if sg ≠ killSignal then (if failure ≠ 0 then failure else 128 + sg) else failure

/-- Outcome of the selection-reading loop: the failure flag, the commands
launched (in arrival order; each is forked and never waited on), and the lines
reported as malformed. -/
structure LoopResult where
  failure : Nat
  launched : List Str
  malformed : List Str
deriving DecidableEq

/-- The selection-reading loop of menu (del.c:664-689) over the getline
results from the selector's pipe.  A newline-terminated line is stripped and
forked (the k-th fork may fail, which sets the failure flag and stops the
loop); a line with no trailing newline is reported as malformed and nothing is
executed for it. -/
def menuLoop (forkOk : Nat → Bool) : Nat → List Str → LoopResult
  | _, [] => ⟨0, [], []⟩
  | k, line :: rest =>
    if 1 ≤ line.length ∧ line.getLast? = some 10 then
      if forkOk k then
        let r := menuLoop forkOk (k + 1) rest
        ⟨r.failure, line.dropLast :: r.launched, r.malformed⟩
      else ⟨1, [], []⟩
    else
      let r := menuLoop forkOk k rest
      ⟨r.failure, r.launched, line :: r.malformed⟩

/-- The failure flag menu holds when it reaches the kill/wait code
(del.c:691-704): the loop's flag, or 1 when the loop ended cleanly but the
stream ended on a read error instead of end-of-file. -/
def menuPreWait (forkOk : Nat → Bool) (lines : List Str) (readError : Bool) : Nat :=
  let f := (menuLoop forkOk 0 lines).failure
  if f = 0 ∧ readError = true then 1 else f

/-- menu's exit code for a run whose selector spawn succeeded: the loop and
read-error flag feed the finalization (the launched commands never do). -/
def menuRun (forkOk : Nat → Bool) (lines : List Str) (readError : Bool) (w : WaitResult) : Nat :=
  reconcile (menuPreWait forkOk lines readError) w

/-- What qsort(3) with stringcomparator (del.c:173-176, del.c:563) guarantees
of its output: every adjacent pair is in case-insensitive order.  The order of
case-insensitively-equal entries is unspecified, so the write phase is
quantified over every arrangement satisfying this predicate. -/
def sortedByCase : List Str → Bool
  | [] => true
  | [_] => true
  | a :: b :: rest => decide (strcasecmp a b ≤ 0) && sortedByCase (b :: rest)

/-- Lowering is idempotent, byte level. -/
theorem lowerByte_idem (b : Nat) : lowerByte (lowerByte b) = lowerByte b := by
  unfold lowerByte
  split_ifs <;> omega

/-- Lowering is idempotent, string level. -/
theorem toLowerStr_idem (s : Str) : toLowerStr (toLowerStr s) = toLowerStr s := by
  induction s with
  | nil => rfl
  | cons a as ih =>
    simp only [toLowerStr, List.map_cons] at ih ⊢
    rw [lowerByte_idem]
    exact congrArg _ ih

/-- strcasecmp returns zero exactly on strings with equal lowered forms. -/
theorem strcasecmp_eq_zero_iff (a b : Str) :
    strcasecmp a b = 0 ↔ toLowerStr a = toLowerStr b := by
  induction a generalizing b with
  | nil =>
    cases b with
    | nil => simp [strcasecmp, toLowerStr]
    | cons y ys => simp [strcasecmp, toLowerStr]
  | cons x xs ih =>
    cases b with
    | nil => simp [strcasecmp, toLowerStr]
    | cons y ys =>
      by_cases h : lowerByte x = lowerByte y
      · simpa [strcasecmp, toLowerStr, h] using ih ys
      · have hne : (lowerByte x : Int) - (lowerByte y : Int) ≠ 0 := by omega
        simp [strcasecmp, toLowerStr, h, hne]

theorem strcasecmp_self (a : Str) : strcasecmp a a = 0 := by
  rw [strcasecmp_eq_zero_iff]

theorem strcasecmp_comm_zero (a b : Str) : strcasecmp a b = 0 ↔ strcasecmp b a = 0 := by
  rw [strcasecmp_eq_zero_iff, strcasecmp_eq_zero_iff, eq_comm]

/-- Lowering the right argument does not change zero-ness. -/
theorem strcasecmp_lower_right (a b : Str) :
    strcasecmp a (toLowerStr b) = 0 ↔ strcasecmp a b = 0 := by
  rw [strcasecmp_eq_zero_iff, strcasecmp_eq_zero_iff, toLowerStr_idem]

/-- The Bool registry invariant, as a Pairwise predicate. -/
theorem caseDistinct_iff_pairwise (l : List Str) :
    caseDistinct l = true ↔ l.Pairwise (fun a b => strcasecmp a b ≠ 0) := by
  induction l with
  | nil => simp [caseDistinct]
  | cons x xs ih =>
    simp [caseDistinct, List.pairwise_cons, ih, List.all_eq_true]

/-- Appending one entry keeps the invariant iff the entry clashes with
nothing already present. -/
theorem caseDistinct_append_singleton (reg : List Str) (y : Str) :
    caseDistinct (reg ++ [y]) = true ↔
      (caseDistinct reg = true ∧ ∀ x ∈ reg, strcasecmp x y ≠ 0) := by
  rw [caseDistinct_iff_pairwise, caseDistinct_iff_pairwise, List.pairwise_append]
  simp

/-- A list with no two (even non-adjacent) byte-identical entries passes the
byte-identity skip of the write phase untouched. -/
theorem dedupO_eq_self (l : List Str) :
    ∀ prev : Option Str, (∀ x, l.head? = some x → prev ≠ some x) →
      l.Pairwise (fun a b => strcasecmp a b ≠ 0) → dedupO prev l = l := by
  induction l with
  | nil => intro prev _ _; rfl
  | cons x xs ih =>
    intro prev hp hpw
    have hne : prev ≠ some x := hp x rfl
    rw [List.pairwise_cons] at hpw
    unfold dedupO
    rw [if_neg hne]
    congr 1
    apply ih
    · intro y hy he
      injection he with he
      subst he
      have hy2 : x ∈ xs := by
        cases xs with
        | nil => cases hy
        | cons a as =>
          injection hy with hy
          exact hy ▸ List.mem_cons_self a as
      exact hpw.1 x hy2 (strcasecmp_self x)
    · exact hpw.2

/-- In a pairwise case-distinct list, a member matches exactly one entry
case-insensitively (itself). -/
theorem countP_caseEq_one (x : Str) (reg : List Str) (hx : x ∈ reg)
    (hpw : reg.Pairwise (fun a b => strcasecmp a b ≠ 0)) :
    reg.countP (fun y => strcasecmp x y == 0) = 1 := by
  induction reg with
  | nil => cases hx
  | cons a as ih =>
    rw [List.pairwise_cons] at hpw
    rw [List.countP_cons]
    rcases List.mem_cons.mp hx with rfl | hxs
    · have h0 : as.countP (fun y => strcasecmp x y == 0) = 0 := by
        apply List.countP_eq_zero.mpr
        intro y hy
        simpa using hpw.1 y hy
      simp [h0, strcasecmp_self x]
    · have hax : ¬ strcasecmp x a = 0 := by
        intro h0
        exact hpw.1 x hxs ((strcasecmp_comm_zero a x).mpr h0)
      simp [hax, ih hxs hpw.2]

/-- C1, counterexample.  The registry state ["Foo", "foo"] (reachable, because
load_commands_from_file performs no containment check) is already sorted
case-insensitively, yet the write phase of refresh_command_list keeps both
entries — its skip at del.c:566 uses strcmp, i.e. byte identity, not
case-insensitive equality — so the persisted file holds two lines that are
equal under case-insensitive comparison, contradicting the claim. -/
theorem C1_counterexample :
    sortedByCase [bytes ("Foo"), bytes ("foo")] = true ∧
    dedupConsecutive [bytes ("Foo"), bytes ("foo")] = [bytes ("Foo"), bytes ("foo")] ∧
    strcasecmp (bytes ("Foo")) (bytes ("foo")) = 0 ∧
    persistFS ⟨true, true, fun _ => true, true, true⟩
        [bytes ("Foo"), bytes ("foo")] ⟨none, none⟩ =
      (0, ⟨some [bytes ("Foo"), bytes ("foo")], none⟩, []) :=
  ⟨by decide, by decide, by decide, by decide⟩

/-- C1 (amended): the write phase sorts case-insensitively but skips only
entries byte-identical (strcmp, del.c:566) to the immediately preceding sorted
entry.  Whenever the registry contains no two case-insensitively-equal
entries, the persisted lines are exactly the sorted arrangement: every entry
survives, the output is in case-insensitive sorted order, and each registry
name matches exactly one persisted line case-insensitively. -/
theorem C1_persist_write_phase :
    ∀ reg sorted : List Str,
      reg.Perm sorted →
      sortedByCase sorted = true →
      caseDistinct reg = true →
      dedupConsecutive sorted = sorted ∧
      sortedByCase (dedupConsecutive sorted) = true ∧
      ∀ x ∈ reg, (dedupConsecutive sorted).countP (fun y => strcasecmp x y == 0) = 1 := by
  intro reg sorted hperm hsort hcd
  have hpw : sorted.Pairwise (fun a b => strcasecmp a b ≠ 0) := by
    refine (hperm.pairwise_iff ?_).mp ((caseDistinct_iff_pairwise reg).mp hcd)
    intro a b hab h0
    exact hab ((strcasecmp_comm_zero a b).mpr h0)
  have hded : dedupConsecutive sorted = sorted :=
    dedupO_eq_self sorted none (by intro x _ h; cases h) hpw
  refine ⟨hded, by rwa [hded], ?_⟩
  intro x hx
  rw [hded]
  exact countP_caseEq_one x sorted (hperm.mem_iff.mp hx) hpw

/-- Witness for C1_persist_write_phase at the registry ["Alpha", "beta"]. -/
theorem C1_persist_write_phase_witness :
    dedupConsecutive [bytes ("Alpha"), bytes ("beta")] = [bytes ("Alpha"), bytes ("beta")] ∧
    sortedByCase (dedupConsecutive [bytes ("Alpha"), bytes ("beta")]) = true ∧
    ∀ x ∈ [bytes ("Alpha"), bytes ("beta")],
      (dedupConsecutive [bytes ("Alpha"), bytes ("beta")]).countP
        (fun y => strcasecmp x y == 0) = 1 :=
  C1_persist_write_phase [bytes ("Alpha"), bytes ("beta")] [bytes ("Alpha"), bytes ("beta")]
    (List.Perm.refl _) (by decide) (by decide)

/-- C2, counterexample.  load_commands_from_file (del.c:456-467) inserts every
resolvable line with no containment check: feeding it "foo" and "Foo" (both
resolvable) yields a registry with two case-insensitively-equal entries, so
not every inserting operation preserves the claimed invariant. -/
theorem C2_counterexample :
    caseDistinct (load_commands_from_file (fun _ => true) (some (bytes ("/bin"))) []
      [bytes ("foo\n"), bytes ("Foo\n")]) = false := by
  decide

/-- C2 (amended): parse_desktop_entry does preserve the no-case-insensitive-
duplicates invariant, because it checks command_list_contains (del.c:400)
before inserting either the lowercased or the original basename; the stdin /
destination-file loader does not. -/
theorem C2_entry_parser_preserves_uniqueness :
    ∀ (X : Str → Bool) (penv : Option Str) (reg lines : List Str),
      caseDistinct reg = true →
      caseDistinct (parse_desktop_entry X penv reg lines) = true := by
  intro X penv reg lines h
  unfold parse_desktop_entry
  cases hc : entryCandidate lines with
  | none => exact h
  | some cb =>
    by_cases hcl : command_list_contains reg cb = true
    · simpa [hcl] using h
    · have hx : ∀ x ∈ reg, strcasecmp x cb ≠ 0 := by
        intro x hxm h0
        apply hcl
        unfold command_list_contains
        rw [List.any_eq_true]
        exact ⟨x, hxm, by simp [h0]⟩
      simp only [hcl, if_false, Bool.false_eq_true]
      split_ifs with h1 h2
      · rw [caseDistinct_append_singleton]
        refine ⟨h, fun x hxm h0 => ?_⟩
        exact hx x hxm ((strcasecmp_lower_right x cb).mp h0)
      · rw [caseDistinct_append_singleton]
        exact ⟨h, hx⟩
      · exact h

/-- Witness for C2_entry_parser_preserves_uniqueness on a one-entry registry. -/
theorem C2_entry_parser_preserves_uniqueness_witness :
    caseDistinct (parse_desktop_entry (fun _ => true) (some (bytes ("/bin")))
      [bytes ("vim")] [headerLine, bytes ("Exec=foo\n")]) = true :=
  C2_entry_parser_preserves_uniqueness (fun _ => true) (some (bytes ("/bin")))
    [bytes ("vim")] [headerLine, bytes ("Exec=foo\n")] (by decide)

/-- When every candidate stays under PATH_MAX, the component scan returns the
candidate of the first component that tests executable. -/
theorem searchPath_eq_find (X : Str → Bool) (cmd : Str) :
    ∀ comps : List Str,
      (∀ comp ∈ comps, (compPre comp).length + cmd.length < PATH_MAX) →
      searchPath X cmd comps =
        match comps.find? (fun comp => X (compPre comp ++ cmd)) with
        | some comp => .ok (compPre comp ++ cmd)
        | none => .error .notFound := by
  intro comps
  induction comps with
  | nil => intro _; rfl
  | cons c cs ih =>
    intro h
    have hc := h c (List.mem_cons_self c cs)
    unfold searchPath
    rw [if_neg (by omega)]
    by_cases hX : X (compPre c ++ cmd) = true
    · rw [if_pos hX]
      simp [List.find?_cons, hX]
    · have hX2 : X (compPre c ++ cmd) = false := by simpa using hX
      rw [if_neg hX, ih (fun x hx => h x (List.mem_cons_of_mem c hx))]
      simp [List.find?_cons, hX2]

/-- C4: command_path (del.c:271-324).  A token containing '/' is probed
directly and the PATH value is never consulted; with no '/' an unset PATH
fails resolution; an empty PATH component becomes the current directory
("./"); when no candidate overflows, the first component in colon order whose
join tests executable wins; and a candidate reaching PATH_MAX aborts the whole
scan with ENAMETOOLONG regardless of the remaining components. -/
theorem C4_command_path :
    (∀ (X : Str → Bool) (p1 p2 : Option Str) (cmd : Str), cmd.contains 47 = true →
        command_pathE X p1 cmd = command_pathE X p2 cmd) ∧
    (∀ (X : Str → Bool) (p : Option Str) (cmd : Str), cmd.contains 47 = true →
        command_pathE X p cmd = if X cmd then .ok cmd else .error .notFound) ∧
    (∀ (X : Str → Bool) (cmd : Str), cmd.contains 47 = false →
        command_pathE X none cmd = .error .pathUnset) ∧
    (∀ cmd : Str, compPre [] ++ cmd = 46 :: 47 :: cmd) ∧
    (∀ (X : Str → Bool) (s cmd : Str), cmd.contains 47 = false →
        (∀ comp ∈ splitColon s, (compPre comp).length + cmd.length < PATH_MAX) →
        command_pathE X (some s) cmd =
          match (splitColon s).find? (fun comp => X (compPre comp ++ cmd)) with
          | some comp => .ok (compPre comp ++ cmd)
          | none => .error .notFound) ∧
    (∀ (X : Str → Bool) (cmd comp : Str) (rest : List Str),
        PATH_MAX ≤ (compPre comp).length + cmd.length →
        searchPath X cmd (comp :: rest) = .error .nameTooLong) := by
  refine ⟨?_, ?_, ?_, ?_, ?_, ?_⟩
  · intro X p1 p2 cmd h
    unfold command_pathE
    rw [if_pos h, if_pos h]
  · intro X p cmd h
    unfold command_pathE
    rw [if_pos h]
  · intro X cmd h
    unfold command_pathE
    rw [if_neg (by intro hcon; rw [h] at hcon; exact Bool.noConfusion hcon)]
  · intro cmd; rfl
  · intro X s cmd h hlen
    unfold command_pathE
    rw [if_neg (by intro hcon; rw [h] at hcon; exact Bool.noConfusion hcon)]
    exact searchPath_eq_find X cmd (splitColon s) hlen
  · intro X cmd comp rest h
    unfold searchPath
    rw [if_pos h]

/-- Witness for C4_command_path: "./foo" resolves by the direct probe. -/
theorem C4_command_path_witness :
    command_pathE (fun _ => true) (some (bytes ("ignored"))) (bytes ("./foo")) =
      .ok (bytes ("./foo")) := by
  have h := C4_command_path.2.1 (fun _ => true) (some (bytes ("ignored")))
    (bytes ("./foo")) (by decide)
  simpa using h

/-- The line loop processed over an append: if the first part breaks, the
second part is never looked at. -/
theorem parseLoopB_append (st : ParseState) (xs ys : List Str) :
    parseLoopB st (xs ++ ys) =
      if (parseLoopB st xs).2 then parseLoopB st xs
      else parseLoopB (parseLoopB st xs).1 ys := by
  induction xs generalizing st with
  | nil => simp [parseLoopB]
  | cons l ls ih =>
    simp only [List.cons_append, parseLoopB]
    by_cases hb : (processLine st l).2 = true
    · simp [hb]
    · simp only [hb, if_false, Bool.false_eq_true]
      exact ih (processLine st l).1

/-- Inside the section, a line carrying NoDisplay/Terminal with value "true"
clears the command buffer and breaks the loop (del.c:371-376). -/
theorem processLine_disqualifier (st : ParseState) (line : Str)
    (hin : st.inside = true) (hd : disqualifier line = true) :
    processLine st line = ({ st with command := [] }, true) := by
  unfold processLine
  rw [hin]
  unfold disqualifier at hd
  cases h1 : parseKeyValue keyNoDisplay line with
  | some v =>
    rw [h1] at hd
    have hd2 : strcasecmp trueStr v = 0 := by simpa using hd
    simp [h1, hd2]
  | none =>
    rw [h1] at hd
    cases h2 : parseKeyValue keyTerminal line with
    | some v =>
      rw [h2] at hd
      have hd2 : strcasecmp trueStr v = 0 := by simpa using hd
      simp [h1, h2, hd2]
    | none =>
      rw [h2] at hd
      exact Bool.noConfusion hd

/-- C5: once the parser is inside the recognized section, a NoDisplay or
Terminal key with case-insensitive value "true" makes the file yield no
candidate, leaves the remaining lines unparsed, and leaves the registry
unchanged, regardless of Exec lines before or after it. -/
theorem C5_disqualifying_key :
    ∀ (pre rest : List Str) (line : Str),
      (parseLoopB initState pre).2 = false →
      (parseLoopB initState pre).1.inside = true →
      disqualifier line = true →
      entryCandidate (pre ++ line :: rest) = none ∧
      parseLoopB initState (pre ++ line :: rest) = parseLoopB initState (pre ++ [line]) ∧
      ∀ (X : Str → Bool) (penv : Option Str) (reg : List Str),
        parse_desktop_entry X penv reg (pre ++ line :: rest) = reg := by
  intro pre rest line hb hin hd
  have hstep : ∀ ys : List Str, parseLoopB initState (pre ++ line :: ys) =
      ({ (parseLoopB initState pre).1 with command := [] }, true) := by
    intro ys
    rw [parseLoopB_append, if_neg (by simp [hb])]
    have hpl := processLine_disqualifier _ line hin hd
    simp [parseLoopB, hpl]
  have hcand : entryCandidate (pre ++ line :: rest) = none := by
    unfold entryCandidate
    rw [hstep rest]
    simp
  refine ⟨hcand, ?_, ?_⟩
  · rw [hstep rest, show pre ++ [line] = pre ++ line :: [] from rfl, hstep []]
  · intro X penv reg
    unfold parse_desktop_entry
    rw [hcand]

/-- Witness for C5_disqualifying_key: a Terminal=TRUE line between two Exec
lines suppresses the candidate and stops the parse. -/
theorem C5_disqualifying_key_witness :
    entryCandidate ([headerLine, bytes ("Exec=foo\n")] ++
        (bytes ("Terminal=TRUE\n")) :: [bytes ("Exec=bar\n")]) = none ∧
    parseLoopB initState ([headerLine, bytes ("Exec=foo\n")] ++
        (bytes ("Terminal=TRUE\n")) :: [bytes ("Exec=bar\n")]) =
      parseLoopB initState ([headerLine, bytes ("Exec=foo\n")] ++ [bytes ("Terminal=TRUE\n")]) ∧
    parse_desktop_entry (fun _ => true) none [] ([headerLine, bytes ("Exec=foo\n")] ++
        (bytes ("Terminal=TRUE\n")) :: [bytes ("Exec=bar\n")]) = [] := by
  have h := C5_disqualifying_key [headerLine, bytes ("Exec=foo\n")] [bytes ("Exec=bar\n")]
    (bytes ("Terminal=TRUE\n")) (by decide) (by decide) (by decide)
  exact ⟨h.1, h.2.1, h.2.2 (fun _ => true) none []⟩

/-- Each sscanf token step strictly consumes input. -/
theorem nextToken_some_length {s tok rest2 : Str} (h : nextToken s = some (tok, rest2)) :
    rest2.length < s.length := by
  unfold nextToken at h
  by_cases h0 : ((skipWs s).takeWhile (fun b => !(isWs b))).take 4095 = []
  · rw [if_pos h0] at h; exact Option.noConfusion h
  · rw [if_neg h0] at h
    injection h with h
    injection h with h1 h2
    have hl1 : (skipWs s).length ≤ s.length := by
      have h3 := congrArg List.length (List.takeWhile_append_dropWhile isWs s)
      rw [List.length_append] at h3
      unfold skipWs
      omega
    have hl2 : 1 ≤ (((skipWs s).takeWhile (fun b => !(isWs b))).take 4095).length :=
      List.length_pos.mpr h0
    have hl3 : (((skipWs s).takeWhile (fun b => !(isWs b))).take 4095).length ≤
        (skipWs s).length := by
      have h3 := congrArg List.length
        (List.takeWhile_append_dropWhile (fun b => !(isWs b)) (skipWs s))
      rw [List.length_append] at h3
      have h4 := List.length_take_le' 4095 ((skipWs s).takeWhile (fun b => !(isWs b)))
      omega
    rw [← h2, List.length_drop]
    omega

/-- What the env rescan computes, fuel-indexed: the first token qualifying
under envOk becomes command and basename; with tokens present but none
qualifying the command is cleared; with no tokens at all the state (and in
particular the "env" already in the command buffer) is untouched. -/
theorem envScanF_characterization :
    ∀ (fuel : Nat) (st : ParseState) (rest : Str), rest.length < fuel →
      envScanF fuel st rest =
        (match (tokenizeF fuel rest).find? envOk with
         | some t => { st with command := t, cbase := basename t }
         | none => if tokenizeF fuel rest = [] then st else { st with command := [] }) := by
  intro fuel
  induction fuel with
  | zero => intro st rest h; exact absurd h (Nat.not_lt_zero _)
  | succ n ih =>
    intro st rest h
    cases hnt : nextToken rest with
    | none => simp [envScanF, tokenizeF, hnt]
    | some pr =>
      obtain ⟨tok, rest2⟩ := pr
      have hlt : rest2.length < n := by
        have := nextToken_some_length hnt
        omega
      by_cases he : envOk tok = true
      · simp [envScanF, tokenizeF, hnt, he, List.find?_cons, List.find?]
      · have he2 : envOk tok = false := by simpa using he
        have hih := ih { st with command := [] } rest2 hlt
        simp only [envScanF, tokenizeF, hnt, he2, if_false, Bool.false_eq_true]
        rw [hih]
        cases hf : (tokenizeF n rest2).find? envOk with
        | some t => simp [List.find?_cons, he2, hf]
        | none =>
          simp only [List.find?_cons, he2, hf]
          by_cases hz : tokenizeF n rest2 = []
          · simp [hz]
          · simp [hz]

/-- The env rescan of del.c:383-393, characterized over the token sequence of
the Exec line's remainder. -/
theorem envScan_characterization (st : ParseState) (rest : Str) :
    envScan st rest =
      match (tokenize rest).find? envOk with
      | some t => { st with command := t, cbase := basename t }
      | none => if tokenize rest = [] then st else { st with command := [] } :=
  envScanF_characterization (rest.length + 1) st rest (Nat.lt_succ_self _)

/-- A line that parses as an Exec key cannot also parse as NoDisplay or
Terminal: the sscanf literals disagree on the first bytes. -/
theorem parseExec_not_keys {line : Str} {x : Str × Str} (h : parseExec line = some x) :
    parseKeyValue keyNoDisplay line = none ∧ parseKeyValue keyTerminal line = none := by
  have h4 : line.take keyExec.length = keyExec := by
    by_contra hc
    unfold parseExec at h
    rw [if_neg hc] at h
    exact Option.noConfusion h
  constructor
  · unfold parseKeyValue
    rw [if_neg ?_]
    intro hq
    have h5 : (line.take keyNoDisplay.length).take keyExec.length =
        keyNoDisplay.take keyExec.length := by rw [hq]
    rw [List.take_take] at h5
    rw [show min keyExec.length keyNoDisplay.length = keyExec.length from by decide] at h5
    rw [h4] at h5
    exact absurd h5 (by decide)
  · unfold parseKeyValue
    rw [if_neg ?_]
    intro hq
    have h5 : (line.take keyTerminal.length).take keyExec.length =
        keyTerminal.take keyExec.length := by rw [hq]
    rw [List.take_take] at h5
    rw [show min keyExec.length keyTerminal.length = keyExec.length from by decide] at h5
    rw [h4] at h5
    exact absurd h5 (by decide)

/-- C6, counterexample.  For the line "Exec=env" there is no token after
"env" at all, yet the parser produces the candidate "env" rather than no
command: the rescan loop body never runs, so the command buffer keeps "env"
(del.c:377-393). -/
theorem C6_counterexample :
    entryCandidate [headerLine, bytes ("Exec=env\n")] = some (bytes ("env")) ∧
    entryCandidate [headerLine, bytes ("Exec=env\n")] ≠ none := by
  refine ⟨by decide, by decide⟩

/-- C6 (amended): the first whitespace-delimited token of an Exec value is the
candidate; when its basename is "env" the rescan takes the first subsequent
token that neither contains '=' after its first byte nor begins with '-'; if
tokens follow but none qualifies, no command is produced; if no token follows
at all, the candidate remains "env".  The spec's example resolves to
"mycmd". -/
theorem C6_exec_tokenization :
    (∀ (st : ParseState) (rest : Str),
        envScan st rest =
          match (tokenize rest).find? envOk with
          | some t => { st with command := t, cbase := basename t }
          | none => if tokenize rest = [] then st else { st with command := [] }) ∧
    (∀ (st : ParseState) (line : Str) (tr : Str × Str),
        st.inside = true → parseExec line = some tr → basename tr.1 ≠ envStr →
        processLine st line = ({ st with command := tr.1, cbase := basename tr.1 }, false)) ∧
    entryCandidate [headerLine, bytes ("Exec=env FOO=bar -x mycmd --flag\n")] =
      some (bytes ("mycmd")) := by
  refine ⟨envScan_characterization, ?_, by decide⟩
  intro st line tr hin hpe hne
  unfold processLine
  rw [hin]
  rw [(parseExec_not_keys hpe).1, (parseExec_not_keys hpe).2, hpe]
  simp [hne]

/-- Witness for C6_exec_tokenization: an ordinary Exec line takes its first
token as candidate. -/
theorem C6_exec_tokenization_witness :
    processLine ⟨true, [], []⟩ (bytes ("Exec=firefox --new\n")) =
      (⟨true, bytes ("firefox"), basename (bytes ("firefox"))⟩, false) :=
  C6_exec_tokenization.2.1 ⟨true, [], []⟩ (bytes ("Exec=firefox --new\n"))
    (bytes ("firefox"), bytes (" --new\n")) rfl (by decide) (by decide)

/-- A completed write loop wrote exactly the skip-filtered lines. -/
theorem writeLoop_complete (w : Nat → Bool) :
    ∀ (xs : List Str) (k : Nat) (prev : Option Str),
      (writeLoop w k prev xs).2 = true → (writeLoop w k prev xs).1 = dedupO prev xs := by
  intro xs
  induction xs with
  | nil => intro k prev _; rfl
  | cons x l ih =>
    intro k prev h
    by_cases hp : prev = some x
    · simp only [writeLoop, dedupO, if_pos hp] at h ⊢
      exact ih k (some x) h
    · by_cases hw : w k = true
      · simp only [writeLoop, dedupO, if_neg hp, if_pos hw] at h ⊢
        rw [ih (k + 1) (some x) h]
      · simp only [writeLoop, if_neg hp, if_neg hw] at h
        exact Bool.noConfusion h

/-- C7: any failing step of the persist phase (mkstemp, fdopen, a write, the
flush/fsync/fclose group, rename) deletes the temporary file when one was
created, reports a diagnostic, leaves the destination untouched, and returns
failure; only the fully completed sequence replaces the destination, and then
with the complete deduplicated content.  So the destination always holds
either the previous or the new complete content. -/
theorem C7_persist_failure_atomicity :
    ∀ (o : IOOracle) (sorted : List Str) (fs : FS),
      fs.temp = none →
      (((persistFS o sorted fs).1 = 1 ∧
        (persistFS o sorted fs).2.1.dest = fs.dest ∧
        (persistFS o sorted fs).2.1.temp = none ∧
        (persistFS o sorted fs).2.2 ≠ []) ∨
       ((persistFS o sorted fs).1 = 0 ∧
        (persistFS o sorted fs).2.1.dest = some (dedupConsecutive sorted) ∧
        (persistFS o sorted fs).2.1.temp = none ∧
        o.mkstempOk = true ∧ o.fdopenOk = true ∧
        (writeLoop o.writeOk 0 none sorted).2 = true ∧
        o.flushOk = true ∧ o.renameOk = true)) := by
  intro o sorted fs htemp
  unfold persistFS
  by_cases h1 : o.mkstempOk = false
  · left
    simp [h1, htemp]
  · rw [if_neg h1]
    by_cases h2 : o.fdopenOk = false
    · left
      simp [h2]
    · rw [if_neg h2]
      by_cases h3 : (writeLoop o.writeOk 0 none sorted).2 = false
      · left
        simp [h3]
      · rw [if_neg h3]
        have h3t : (writeLoop o.writeOk 0 none sorted).2 = true := by
          simpa using h3
        by_cases h4 : o.flushOk = false
        · left
          simp [h4]
        · rw [if_neg h4]
          by_cases h5 : o.renameOk = false
          · left
            simp [h5]
          · rw [if_neg h5]
            right
            refine ⟨rfl, ?_, rfl, by simpa using h1, by simpa using h2, h3t,
              by simpa using h4, by simpa using h5⟩
            simp only
            rw [writeLoop_complete o.writeOk sorted 0 none h3t]
            rfl

/-- Witness for C7_persist_failure_atomicity: an all-successful oracle takes
the success branch. -/
theorem C7_persist_failure_atomicity_witness :
    (((persistFS ⟨true, true, fun _ => true, true, true⟩ [bytes ("a")]
        ⟨some [bytes ("old")], none⟩).1 = 1 ∧
      (persistFS ⟨true, true, fun _ => true, true, true⟩ [bytes ("a")]
        ⟨some [bytes ("old")], none⟩).2.1.dest = (⟨some [bytes ("old")], none⟩ : FS).dest ∧
      (persistFS ⟨true, true, fun _ => true, true, true⟩ [bytes ("a")]
        ⟨some [bytes ("old")], none⟩).2.1.temp = none ∧
      (persistFS ⟨true, true, fun _ => true, true, true⟩ [bytes ("a")]
        ⟨some [bytes ("old")], none⟩).2.2 ≠ []) ∨
     ((persistFS ⟨true, true, fun _ => true, true, true⟩ [bytes ("a")]
        ⟨some [bytes ("old")], none⟩).1 = 0 ∧
      (persistFS ⟨true, true, fun _ => true, true, true⟩ [bytes ("a")]
        ⟨some [bytes ("old")], none⟩).2.1.dest = some (dedupConsecutive [bytes ("a")]) ∧
      (persistFS ⟨true, true, fun _ => true, true, true⟩ [bytes ("a")]
        ⟨some [bytes ("old")], none⟩).2.1.temp = none ∧
      (⟨true, true, fun _ => true, true, true⟩ : IOOracle).mkstempOk = true ∧
      (⟨true, true, fun _ => true, true, true⟩ : IOOracle).fdopenOk = true ∧
      (writeLoop (⟨true, true, fun _ => true, true, true⟩ : IOOracle).writeOk 0 none
        [bytes ("a")]).2 = true ∧
      (⟨true, true, fun _ => true, true, true⟩ : IOOracle).flushOk = true ∧
      (⟨true, true, fun _ => true, true, true⟩ : IOOracle).renameOk = true)) :=
  C7_persist_failure_atomicity ⟨true, true, fun _ => true, true, true⟩ [bytes ("a")]
    ⟨some [bytes ("old")], none⟩ rfl

/-- C8: when the registry is empty after the whole loading phase (stdin,
pre-existing destination file, directory traversals), refresh reports "no
commands found" and returns the fatal status 1, with the filesystem state —
destination file and temporary — untouched (del.c:550-553 precedes the
mkstemp call). -/
theorem C8_empty_registry_fatal :
    ∀ (X : Str → Bool) (penv : Option Str) (stdinLines destLines : Option (List Str))
      (entries : List (List Str)) (o : IOOracle) (sorted : List Str) (fs : FS),
      refresh_command_list_load X penv stdinLines destLines entries = [] →
      refresh_command_list_write o
          (refresh_command_list_load X penv stdinLines destLines entries) sorted fs =
        (1, fs, [Report.noCommandsErr]) := by
  intro X penv s d e o sorted fs h
  rw [h]
  rfl

/-- Witness for C8_empty_registry_fatal: nothing on stdin, no prior file, no
descriptor files. -/
theorem C8_empty_registry_fatal_witness :
    refresh_command_list_write ⟨true, true, fun _ => true, true, true⟩
        (refresh_command_list_load (fun _ => false) none none none []) []
        ⟨none, none⟩ =
      (1, ⟨none, none⟩, [Report.noCommandsErr]) :=
  C8_empty_registry_fatal (fun _ => false) none none none []
    ⟨true, true, fun _ => true, true, true⟩ [] ⟨none, none⟩ rfl

/-- The selection loop's failure flag is 0 or 1 when it reaches the kill/wait
code. -/
theorem menuLoop_failure_zero_or_one (forkOk : Nat → Bool) :
    ∀ (lines : List Str) (k : Nat),
      (menuLoop forkOk k lines).failure = 0 ∨ (menuLoop forkOk k lines).failure = 1 := by
  intro lines
  induction lines with
  | nil => intro k; left; rfl
  | cons line rest ih =>
    intro k
    by_cases h1 : 1 ≤ line.length ∧ line.getLast? = some 10
    · by_cases h2 : forkOk k = true
      · simpa [menuLoop, h1, h2] using ih (k + 1)
      · right
        simp [menuLoop, h1, h2]
    · simpa [menuLoop, h1] using ih k

theorem menuPreWait_zero_or_one (forkOk : Nat → Bool) (lines : List Str) (readError : Bool) :
    menuPreWait forkOk lines readError = 0 ∨ menuPreWait forkOk lines readError = 1 := by
  unfold menuPreWait
  rcases menuLoop_failure_zero_or_one forkOk lines 0 with h | h
  · rw [h]
    by_cases hr : readError = true
    · right; simp [hr]
    · left; simp [hr]
  · rw [h]
    right; simp

/-- With a fatal flag pending, finalization always reports 1: a non-zero exit
status is not consulted, and a death by the cancellation signal (SIGHUP, which
the orchestrator itself sent exactly in this case) is not reported on top. -/
theorem reconcile_one (w : WaitResult) : reconcile 1 w = 1 := by
  cases w with
  | exited st => simp [reconcile]
  | signaled sg =>
    unfold reconcile SIGHUP
    by_cases h : sg = 1 <;> simp [h]

theorem reconcile_zero_exited (st : Nat) : reconcile 0 (.exited st) = st := by
  simp [reconcile]

theorem reconcile_zero_signaled (sg : Nat) (h : 1 ≤ sg) :
    reconcile 0 (.signaled sg) = 128 + sg := by
  unfold reconcile SIGHUP
  have h0 : sg ≠ 0 := by omega
  simp [h0]

/-- C3: the final result is reconciled by priority — a fatal setup/read error
gives 1; otherwise a non-zero selector exit status is the result; otherwise a
death signal (necessarily different from any cancellation signal, since none
was sent without a fatal error) gives 128 + signal; otherwise 0.  The last
conjunct is end-to-end scenario 4: the second spawn fails, the loop stops
before the third line, the selector is cancelled with SIGHUP, its death by
that same signal is not additionally reported, and the result is 1. -/
theorem C3_exit_code_reconciliation :
    (∀ w : WaitResult, reconcile 1 w = 1) ∧
    (∀ (forkOk : Nat → Bool) (lines : List Str) (readError : Bool) (st : Nat),
        menuRun forkOk lines readError (.exited st) =
          if menuPreWait forkOk lines readError = 1 then 1 else st) ∧
    (∀ (forkOk : Nat → Bool) (lines : List Str) (readError : Bool) (sg : Nat), 1 ≤ sg →
        menuRun forkOk lines readError (.signaled sg) =
          if menuPreWait forkOk lines readError = 1 then 1 else 128 + sg) ∧
    (menuLoop (fun k => k == 0) 0 [bytes ("a\n"), bytes ("b\n"), bytes ("c\n")] =
       ⟨1, [bytes ("a")], []⟩ ∧
     menuRun (fun k => k == 0) [bytes ("a\n"), bytes ("b\n"), bytes ("c\n")] false
       (.signaled SIGHUP) = 1) := by
  refine ⟨reconcile_one, ?_, ?_, by decide, by decide⟩
  · intro forkOk lines readError st
    unfold menuRun
    rcases menuPreWait_zero_or_one forkOk lines readError with h | h
    · rw [h, reconcile_zero_exited, if_neg (by omega)]
    · rw [h, reconcile_one, if_pos rfl]
  · intro forkOk lines readError sg hsg
    unfold menuRun
    rcases menuPreWait_zero_or_one forkOk lines readError with h | h
    · rw [h, reconcile_zero_signaled sg hsg, if_neg (by omega)]
    · rw [h, reconcile_one, if_pos rfl]

/-- Witness for C3_exit_code_reconciliation: a clean loop whose selector died
from signal 9 yields 137. -/
theorem C3_exit_code_reconciliation_witness :
    menuRun (fun _ => true) [] false (.signaled 9) = 137 := by
  have h := C3_exit_code_reconciliation.2.2.1 (fun _ => true) [] false 9 (by decide)
  rw [h]
  decide

/-- With all forks succeeding, the loop launches exactly the stripped
newline-terminated lines in arrival order and reports the newline-less tail
line as malformed. -/
theorem menuLoop_complete_lines (f : Str) (_hne : f ≠ []) (hnl : f.getLast? ≠ some 10) :
    ∀ (ls : List Str) (k : Nat),
      menuLoop (fun _ => true) k (ls.map (fun l => l ++ [10]) ++ [f]) = ⟨0, ls, [f]⟩ := by
  intro ls
  induction ls with
  | nil =>
    intro k
    have hc : ¬ (1 ≤ f.length ∧ f.getLast? = some 10) := fun hx => hnl hx.2
    simp [menuLoop, hc]
  | cons l ls2 ih =>
    intro k
    have h1 : 1 ≤ (l ++ [10]).length := by simp
    have h2 : (l ++ [10]).getLast? = some 10 := List.getLast?_concat l
    simp [menuLoop, h1, h2, ih (k + 1), List.dropLast_concat]

/-- C9: each newline-terminated selection line is stripped and spawned in
arrival order (and the spawned processes never feed back into the result: the
finalization depends only on the selector's own wait status); a final line
with no trailing newline is reported as malformed and not executed; and when
the selector then exits with status 0 the overall result is 0. -/
theorem C9_selection_stream :
    ∀ (ls : List Str) (f : Str), f ≠ [] → f.getLast? ≠ some 10 →
      menuLoop (fun _ => true) 0 (ls.map (fun l => l ++ [10]) ++ [f]) = ⟨0, ls, [f]⟩ ∧
      menuRun (fun _ => true) (ls.map (fun l => l ++ [10]) ++ [f]) false (.exited 0) = 0 := by
  intro ls f hne hnl
  have hm := menuLoop_complete_lines f hne hnl ls 0
  refine ⟨hm, ?_⟩
  unfold menuRun menuPreWait
  rw [hm]
  simp [reconcile]

/-- Witness for C9_selection_stream: one complete line and a newline-less
tail. -/
theorem C9_selection_stream_witness :
    menuLoop (fun _ => true) 0 (([bytes ("a")]).map (fun l => l ++ [10]) ++ [bytes ("b")]) =
      ⟨0, [bytes ("a")], [bytes ("b")]⟩ ∧
    menuRun (fun _ => true) (([bytes ("a")]).map (fun l => l ++ [10]) ++ [bytes ("b")])
      false (.exited 0) = 0 :=
  C9_selection_stream [bytes ("a")] (bytes ("b")) (by decide) (by decide)

/-- Registry entries survive any further loading. -/
theorem load_mem_mono (X : Str → Bool) (penv : Option Str) :
    ∀ (lines reg : List Str) (x : Str),
      x ∈ reg → x ∈ load_commands_from_file X penv reg lines := by
  intro lines
  induction lines with
  | nil =>
    intro reg x hx
    simpa [load_commands_from_file] using hx
  | cons line rest ih =>
    intro reg x hx
    unfold load_commands_from_file
    by_cases h : (command_path X penv (stripNewline line)).isSome = true
    · simp only [h, if_true]
      exact ih (reg ++ [stripNewline line]) x (List.mem_append_left _ hx)
    · simp only [h, if_false, Bool.false_eq_true]
      exact ih reg x hx

/-- C10: the stdin/destination loader strips exactly one trailing newline and
accepts a final line with no trailing newline: that line is passed unchanged
through command_path and inserted when it resolves — in contrast to the
selection stream, where the menu loop reports a newline-less final line as
malformed and launches nothing for it. -/
theorem C10_stdin_trailing_newline :
    (∀ l : Str, l.getLast? ≠ some 10 → stripNewline l = l) ∧
    (∀ l : Str, stripNewline (l ++ [10]) = l) ∧
    (∀ (X : Str → Bool) (penv : Option Str) (reg lines : List Str) (f : Str),
        f.getLast? ≠ some 10 →
        (command_path X penv f).isSome = true →
        f ∈ load_commands_from_file X penv reg (lines ++ [f])) ∧
    (∀ (forkOk : Nat → Bool) (k : Nat) (f : Str), f.getLast? ≠ some 10 →
        menuLoop forkOk k [f] = ⟨0, [], [f]⟩) := by
  refine ⟨?_, ?_, ?_, ?_⟩
  · intro l h
    simp [stripNewline, h]
  · intro l
    simp [stripNewline, List.getLast?_concat, List.dropLast_concat]
  · intro X penv reg lines f h1 h2
    have hs : stripNewline f = f := by simp [stripNewline, h1]
    induction lines generalizing reg with
    | nil =>
      have : load_commands_from_file X penv reg [f] = reg ++ [f] := by
        simp [load_commands_from_file, hs, h2]
      rw [List.nil_append, this]
      exact List.mem_append_right reg (List.mem_singleton.mpr rfl)
    | cons l2 ls ih =>
      rw [List.cons_append]
      unfold load_commands_from_file
      by_cases h : (command_path X penv (stripNewline l2)).isSome = true
      · simp only [h, if_true]
        exact ih (reg ++ [stripNewline l2])
      · simp only [h, if_false, Bool.false_eq_true]
        exact ih reg
  · intro forkOk k f h
    have hc : ¬ (1 ≤ f.length ∧ f.getLast? = some 10) := fun hx => h hx.2
    simp [menuLoop, hc]

/-- Witness for C10_stdin_trailing_newline: a newline-less final stdin line is
loaded. -/
theorem C10_stdin_trailing_newline_witness :
    bytes ("vim") ∈ load_commands_from_file (fun _ => true) (some (bytes ("/bin")))
      [] ([bytes ("emacs\n")] ++ [bytes ("vim")]) :=
  C10_stdin_trailing_newline.2.2.1 (fun _ => true) (some (bytes ("/bin"))) []
    [bytes ("emacs\n")] (bytes ("vim")) (by decide) (by decide)

end Del
